import Mathlib

/-!
The circle build system: label-filtered leasing, RPC routing and the agent's supervision of one task

A shallow embedding of three Go source files of the repository:

* `handler/rpc.go`: `RPC.Next`, the adapter between the RPC server and the task queue;
* `vendor/.../pipeline/rpc2/server.go`: `Server.router` and `Server.next`;
* `circle/agent/agent.go`: `run`, with its log and trace callbacks.

Conventions of the embedding.

* A Go `map[string]string` is an association list (`StrMap`).  Reading a key that is absent
  yields the empty string, as the Go index expression does.  A map value that may be `nil`
  and is written to is an `Option StrMap`.
* A Go `error` coming from a collaborator is its text (`String`); a `nil` error is `none`.
* Signed 64-bit arithmetic is integer arithmetic followed by `wrap64`.
* Collaborators whose code is outside the sources (the queue, JSON, the file system, the RPC
  client, the pipeline executor, the clock) are passed in as values: every result they can
  produce is a possible input of the embedded function.
-/

set_option autoImplicit false

/-! ## Go maps of strings -/

/-- A Go `map[string]string`, as a list of key/value pairs. -/
structure StrMap where
  kvs : List (String × String)
deriving DecidableEq, Repr

namespace StrMap

/-- The map without entries. -/
def empty : StrMap := ⟨[]⟩

/-- The two-valued index expression `v, ok := m[k]`. -/
def find? (m : StrMap) (k : String) : Option String :=
  m.kvs.lookup k

/-- The index expression `m[k]`: the zero value `""` when the key is absent. -/
def index (m : StrMap) (k : String) : String :=
  match m.find? k with
  | some v => v
  | none => ""

/-- Whether `k` is a key of the map. -/
def contains (m : StrMap) (k : String) : Bool :=
  (m.find? k).isSome

/-- The assignment `m[k] = v`. -/
def set (m : StrMap) (k v : String) : StrMap :=
  ⟨(k, v) :: m.kvs.filter (fun e => e.1 != k)⟩

/-- A list represents a Go map when no key occurs twice. -/
def WF (m : StrMap) : Prop :=
  (m.kvs.map Prod.fst).Nodup

instance (m : StrMap) : Decidable m.WF := by
  unfold WF
  infer_instance

end StrMap

/-! ## Records of the RPC packages -/

namespace rpc

/-- The `Filter` record of the RPC packages. -/
structure Filter where
  Labels : StrMap
deriving DecidableEq, Repr

/-- The `backend.Config` pipeline definition.  The code under study only passes it along, so
it is an uninterpreted token. -/
structure Config where
  token : Nat
deriving DecidableEq, Repr

/-- The `Pipeline` record of the RPC packages: a leased unit of work.  `Timeout` is a signed
64-bit number of minutes. -/
structure Pipeline where
  ID : String
  Config : Option Config
  Timeout : Int
deriving DecidableEq, Repr

/-- The zero value allocated by `new(rpc2.Pipeline)`. -/
def Pipeline.new : Pipeline := ⟨"", none, 0⟩

/-- The `State` record reported by `Init`, `Update` and `Done`. -/
structure State where
  Proc : String
  Exited : Bool
  ExitCode : Int
  Started : Int
  Finished : Int
  Error : String
deriving DecidableEq, Repr

/-- The zero value `rpc.State{}`. -/
def State.zero : State := ⟨"", false, 0, 0, 0, ""⟩

/-- The `File` record sent by `Upload`. -/
structure File where
  Name : String
  Proc : String
  Mime : String
  Time : Int
  Size : Int
  Data : List UInt8
deriving DecidableEq, Repr

/-- The zero value `rpc.File{}`. -/
def File.zero : File := ⟨"", "", "", 0, 0, []⟩

end rpc

/-! ## `handler/rpc.go` -/

namespace handler

open rpc

/-- The fields of `queue.Task` that the adapter reads. -/
structure Task where
  ID : String
  Data : List UInt8
  Labels : StrMap
deriving DecidableEq, Repr

/-- The queue bound to the adapter: `Poll` receives the predicate and answers with an error,
with no task, or with a task. -/
structure Queue where
  Poll : (Task → Bool) → Except String (Option Task)

/-- The library calls `RPC.Next` makes besides the queue.  `Unmarshal data dst` gives the
destination after decoding together with the decoding error; `WriteFile path data perm` gives
the error of the write. -/
structure Runtime where
  Unmarshal : List UInt8 → Pipeline → Pipeline × Option String
  Marshal : Pipeline → List UInt8
  WriteFile : String → List UInt8 → Nat → Option String

/-- The `RPC` adapter. -/
structure RPC where
  queue : Queue

/-- The body of the `range filter.Labels` loop of the closure `fn`, over the entries still to
visit. -/
def RPC.Next.fnLoop (task : Task) : List (String × String) → Bool
  | [] => true
  | (k, v) :: rest =>
    if task.Labels.index k != v then false else RPC.Next.fnLoop task rest

/-- The closure `fn` of `RPC.Next`, handed to `Poll`. -/
def RPC.Next.fn (filter : Filter) (task : Task) : Bool :=
  RPC.Next.fnLoop task filter.Labels.kvs

/-- The path of the diagnostic file. -/
def RPC.Next.path : String :=
  "/Users/simon/Code/go/src/github.com/SimonXming/circle/test/next_task_data.json"

/-- The method `(*RPC).Next`: the returned pair is `(*rpc2.Pipeline, error)`.  The variable
`err` is assigned twice after the poll, first by `json.Unmarshal` and then by
`ioutil.WriteFile`; the value returned is the one it holds last. -/
def RPC.Next (rt : Runtime) (s : RPC) (filter : Filter) : Option Pipeline × Option String :=
  match s.queue.Poll (RPC.Next.fn filter) with
  | .error err => (none, some err)
  | .ok none => (none, none)
  | .ok (some task) =>
    -- err = json.Unmarshal(task.Data, pipeline): this value of err is not read
    let pipeline := (rt.Unmarshal task.Data Pipeline.new).1
    let pipelineJson := rt.Marshal pipeline
    -- err = ioutil.WriteFile(path, pipelineJson, 0644)
    let err := rt.WriteFile RPC.Next.path pipelineJson 0o644
    (some pipeline, err)

end handler

/-! ## `pipeline/rpc2/server.go` -/

namespace rpc2

open rpc

/-- An error value as seen from inside package `rpc2`: its own unexported sentinel
`errNoSuchMethod`, or an error produced outside the package (by the JSON decoder or by the
peer), which cannot be that sentinel. -/
inductive Error where
  | errNoSuchMethod
  | external (text : String)
deriving DecidableEq, Repr

/-- The `Peer` interface, as far as the server calls it. -/
structure Peer where
  Next : Filter → Option Pipeline × Option String

/-- The `Server` record, with the JSON decoder of filters it uses. -/
structure Server where
  peer : Peer
  Unmarshal : List UInt8 → Except String Filter

/-- The fields of `jsonrpc2.Request` that the router reads; `Params` is a pointer. -/
structure Request where
  Method : String
  Params : Option (List UInt8)

/-- What a handler call produces: the pair `(interface{}, error)`, or a run-time panic. -/
inductive Outcome where
  | ret (result : Option Pipeline) (err : Option Error)
  | panic
deriving DecidableEq, Repr

/-- Modelled from the spec: the constant `methodNext` is declared in a file of package `rpc2`
that is not among the sources; the spec names the method `next`. -/
def methodNext : String := "next"

/-- The method `(*Server).next`. -/
def Server.next (s : Server) (req : Request) : Outcome :=
  match req.Params with
  | none => Outcome.panic
  | some params =>
    match s.Unmarshal params with
    | .error err => Outcome.ret none (some (Error.external err))
    | .ok filter =>
      let r := s.peer.Next filter
      Outcome.ret r.1 (r.2.map Error.external)

/-- The method `(*Server).router`. -/
def Server.router (s : Server) (req : Request) : Outcome :=
  if req.Method = methodNext then s.next req
  else Outcome.ret none (some Error.errNoSuchMethod)

end rpc2

/-! ## The parts of the Go library used by the agent -/

/-- The value of a signed 64-bit computation whose exact result is `x`. -/
def wrap64 (x : Int) : Int :=
  (x + 2 ^ 63) % 2 ^ 64 - 2 ^ 63

namespace time

/-- The constant `time.Minute`, in nanoseconds. -/
def Minute : Int := 60 * 1000000000

/-- The constant `time.Hour`, in nanoseconds. -/
def Hour : Int := 60 * Minute

end time

namespace io

/-- A `Read` with a buffer of `len` bytes on a source holding the bytes `src`: the bytes
delivered (`none` is `io.EOF`) and the bytes left in the source. -/
def Read (src : List UInt8) (len : Nat) : Option (List UInt8) × List UInt8 :=
  match src with
  | [] => (none, [])
  | b :: rest => (some ((b :: rest).take len), (b :: rest).drop len)

/-- The `io.LimitedReader` record: the source `R` and the number `N` of bytes still allowed. -/
structure LimitedReader where
  R : List UInt8
  N : Nat
deriving DecidableEq, Repr

/-- The function `io.LimitReader`. -/
def LimitReader (r : List UInt8) (n : Nat) : LimitedReader := ⟨r, n⟩

/-- The method `(*LimitedReader).Read` with a buffer of `len` bytes. -/
def LimitedReader.Read (l : LimitedReader) (len : Nat) : Option (List UInt8) × LimitedReader :=
  if l.N = 0 then (none, l)
  else
    let len := if len > l.N then l.N else len
    match io.Read l.R len with
    | (none, r) => (none, ⟨r, l.N⟩)
    | (some p, r) => (some p, ⟨r, l.N - p.length⟩)

/-- The loop of `io.Copy` from a limited reader into a writer that accepts every chunk:
`acc` holds the chunks written so far.  At most `fuel` reads are made. -/
def copyLoop (size : Nat) : Nat → LimitedReader → List (List UInt8) →
    List (List UInt8) × LimitedReader
  | 0, l, acc => (acc, l)
  | fuel + 1, l, acc =>
    match l.Read size with
    | (none, l1) => (acc, l1)
    | (some p, l1) => copyLoop size fuel l1 (acc ++ [p])

/-- The function `io.Copy` from a limited reader: the chunks handed to the writer, one per
`Write`, and the reader afterwards.  The buffer has 32 KiB, or `N` bytes when `N` is smaller
(one byte when `N` is zero); every read of a source that is not at its end takes at least one
byte, so one read per byte and one more for the end of input are enough. -/
def Copy (l : LimitedReader) : List (List UInt8) × LimitedReader :=
  let size := if 32 * 1024 > l.N then (if l.N < 1 then 1 else l.N) else 32 * 1024
  copyLoop size (l.R.length + 1) l []

end io

/-! ## `circle/agent/agent.go` -/

namespace agent

open rpc

/-- The constant `maxFileUpload`. -/
def maxFileUpload : Nat := 5000000

/-- The constant `maxLogsUpload`. -/
def maxLogsUpload : Nat := 5000000

/-- The constant `maxProcs`. -/
def maxProcs : Nat := 1

/-- The constant `retryLimit`, `math.MaxInt32`. -/
def retryLimit : Nat := 2147483647

/-- The `backend.Step` record, as far as the callbacks use it; `Environment` may be `nil`. -/
structure Step where
  Alias : String
  Environment : Option StrMap
deriving DecidableEq, Repr

/-- The field `Pipeline` of `pipeline.State`; `Error` is `nil` or an error. -/
structure PipelineInfo where
  Time : Int
  Step : Step
  Error : Option String
deriving DecidableEq, Repr

/-- The field `Process` of `pipeline.State`. -/
structure ProcessState where
  Exited : Bool
  ExitCode : Int
deriving DecidableEq, Repr

/-- The `pipeline.State` record handed to the tracer. -/
structure PipelineState where
  Pipeline : PipelineInfo
  Process : ProcessState
deriving DecidableEq, Repr

/-- An error returned by the executor: a `*pipeline.ExitError`, or any other error, given by
its text. -/
inductive RunError where
  | ExitError (Name : String) (Code : Int)
  | other (text : String)
deriving DecidableEq, Repr

/-- A call made on the RPC client for one task: by `run` itself (`Next`, `Init`, `Done`) or by
a callback that the executor invokes (`Update`, `Upload`). -/
inductive Call where
  | Next (filter : Filter)
  | Init (id : String) (state : State)
  | Update (id : String) (state : State)
  | Upload (id : String) (file : File)
  | Done (id : String) (state : State)
deriving DecidableEq, Repr

/-- The states passed to `Done` in a list of calls, in order. -/
def doneStates : List Call → List State
  | [] => []
  | Call.Done _ state :: rest => state :: doneStates rest
  | _ :: rest => doneStates rest

/-- The four readings of `time.Now().Unix()` made by one call of the tracer, in the order of
the source: `Started`, `Finished`, `CI_BUILD_FINISHED`, `CI_JOB_FINISHED`. -/
structure TraceClock where
  started : Int
  finished : Int
  buildFinished : Int
  jobFinished : Int
deriving DecidableEq, Repr

/-- What a callback leaves behind: the error it returns, the client calls it made, the lines
it logged, the bytes it wrote to standard error. -/
structure Effects where
  err : Option String
  calls : List Call
  logs : List String
  stderr : List UInt8
deriving DecidableEq, Repr

/-- The function `strconv.FormatInt(x, 10)`. -/
def FormatInt (x : Int) : String := toString x

/-- The closure `localLogger` of `run`; `rc` is the result of `rc.NextPart()`. -/
def run.localLogger (rc : Except String (List UInt8)) : Effects :=
  match rc with
  | .error err => ⟨some err, [], [], []⟩
  | .ok part => ⟨none, [], [], part⟩

/-- The closure `defaultLogger` of `run`.  `rc` is the result of `rc.NextPart()`, `marshal`
is `json.Marshal` of the lines kept by the line writer, `now` is the clock reading and
`serr` is the result of `client.Upload`.  Besides the effects, the function gives the chunks
that `io.Copy` wrote to the line writer. -/
def run.defaultLogger (marshal : List (List UInt8) → List UInt8) (work : Pipeline)
    (proc : Step) (rc : Except String (List UInt8)) (now : Int) (serr : Option String) :
    Effects × List (List UInt8) :=
  match rc with
  | .error err => (⟨some err, [], [], []⟩, [])
  | .ok part =>
    let limitedPart := io.LimitReader part maxLogsUpload
    let copied := io.Copy limitedPart
    let logstream := copied.1
    let part := copied.2.R
    let file := File.zero
    let file := { file with Mime := "application/json+logs" }
    let file := { file with Proc := proc.Alias }
    let file := { file with Name := "logs.json" }
    let file := { file with Data := marshal logstream }
    let file := { file with Size := file.Data.length }
    let file := { file with Time := now }
    let uploadLog :=
      match serr with
      | some e => "pipeline: cannot upload logs: " ++ work.ID ++ ": " ++ file.Mime ++ ": " ++ e
      | none => "pipeline: finish uploading logs: " ++ file.Mime ++ ": step " ++ work.ID ++ ": "
          ++ proc.Alias
    let deferredLog := "pipeline: finish uploading logs: " ++ work.ID ++ ": step " ++ proc.Alias
    (⟨none, [Call.Upload work.ID file], [uploadLog, deferredLog], part⟩, logstream)

/-- The closure `defaultTracer` of `run`: the state after the call (the step is updated in
place) and the effects.  `uerr` is the result of `client.Update`, made by the deferred
function on every path. -/
def run.defaultTracer (work : Pipeline) (state : PipelineState) (clock : TraceClock)
    (uerr : Option String) : PipelineState × Effects :=
  let procState : State :=
    { Proc := state.Pipeline.Step.Alias
      Exited := state.Process.Exited
      ExitCode := state.Process.ExitCode
      Started := clock.started
      Finished := clock.finished
      Error := "" }
  let deferred : Effects :=
    ⟨none, [Call.Update work.ID procState],
      match uerr with
      | some e => ["Pipeine: error updating pipeline step status: " ++ work.ID ++ ": "
          ++ procState.Proc ++ ": " ++ e]
      | none => [],
      []⟩
  if state.Process.Exited then (state, deferred)
  else
    let env := match state.Pipeline.Step.Environment with
      | none => StrMap.empty
      | some m => m
    let env := env.set "CI_BUILD_STATUS" "success"
    let env := env.set "CI_BUILD_STARTED" (FormatInt state.Pipeline.Time)
    let env := env.set "CI_BUILD_FINISHED" (FormatInt clock.buildFinished)
    let env := env.set "CI_JOB_STATUS" "success"
    let env := env.set "CI_JOB_STARTED" (FormatInt state.Pipeline.Time)
    let env := env.set "CI_JOB_FINISHED" (FormatInt clock.jobFinished)
    let env :=
      if state.Pipeline.Error.isSome then
        (env.set "CI_BUILD_STATUS" "failure").set "CI_JOB_STATUS" "failure"
      else env
    ({ state with Pipeline := { state.Pipeline with
         Step := { state.Pipeline.Step with Environment := some env } } }, deferred)

/-- One invocation of a callback by the pipeline executor, with what the outside world answers
during it: a call of the tracer, of the uploading logger, or of the local logger. -/
inductive Callback where
  | trace (state : PipelineState) (clock : TraceClock) (uerr : Option String)
  | log (proc : Step) (rc : Except String (List UInt8)) (now : Int) (serr : Option String)
  | localLog (proc : Step) (rc : Except String (List UInt8))

/-- Everything `run` receives from outside during one call: the answers of the RPC client
(`Next`, `Init`, `Done`), of `docker.NewEnv`, of the clock (`started`, `finished`), the callback
invocations the executor makes and the error it returns (`Run`), and the value of the flag
`cancelled` when `run` reads it.

The executor is free to run a callback on a goroutine of its own, and `run` never waits for
the counter `uploads`: the invocations are therefore given in two lists, `callbacks` for those
whose client calls are made before `run` calls `Done`, and `pending` for those whose client
calls are made after it. -/
structure World where
  Next : Filter → Except String (Option Pipeline)
  NewEnv : Option String
  started : Int
  Init : Option String
  marshal : List (List UInt8) → List UInt8
  callbacks : List Callback
  pending : List Callback
  Run : Option RunError
  finished : Int
  cancelled : Bool
  Done : Option String

/-- What one call of `run` leaves behind: the error it returns, the duration given to
`context.WithTimeout` when that line is reached, and the client calls and log lines made for
the task, by `run` and by the callbacks, in the order in which they are made. -/
structure Result where
  err : Option String
  timeout : Option Int
  calls : List Call
  logs : List String
deriving DecidableEq, Repr

/-- The variable `timeout` of `run`, in nanoseconds. -/
def run.timeout (work : Pipeline) : Int :=
  if work.Timeout != 0 then wrap64 (work.Timeout * time.Minute) else time.Hour

/-- The client calls and log lines of a list of callback invocations, in order. -/
def run.execute (marshal : List (List UInt8) → List UInt8) (work : Pipeline) :
    List Callback → List Call × List String
  | [] => ([], [])
  | cb :: rest =>
    let fx : Effects :=
      match cb with
      | Callback.trace state clock uerr => (run.defaultTracer work state clock uerr).2
      | Callback.log proc rc now serr => (run.defaultLogger marshal work proc rc now serr).1
      | Callback.localLog _ rc => run.localLogger rc
    let r := run.execute marshal work rest
    (fx.calls ++ r.1, fx.logs ++ r.2)

/-- The statements of `run` between the return of the executor and the call of `Done`:
`finished` is the clock reading, `err` the executor's error, `cancelled` the value of the
flag. -/
def run.resolve (state : State) (finished : Int) (err : Option RunError) (cancelled : Bool) :
    State :=
  let state := { state with Finished := finished }
  let state := { state with Exited := true }
  match err with
  | none => state
  | some err =>
    let state :=
      match err with
      | RunError.ExitError _ code => { state with ExitCode := code }
      | RunError.other text => { { state with ExitCode := 1 } with Error := text }
    if cancelled then { state with ExitCode := 137 } else state

/-- The function `run`.  The calls of the callbacks in `w.callbacks` come between `Init` and
`Done`, those of the callbacks in `w.pending` come after `Done`. -/
def run (w : World) (filter : Filter) : Result :=
  let logs := ["pipeline: request next execution"]
  let calls := [Call.Next filter]
  match w.Next filter with
  | .error err => ⟨some err, none, calls, logs⟩
  | .ok none => ⟨none, none, calls, logs⟩
  | .ok (some work) =>
    let logs := logs ++ ["pipeline: received next execution: " ++ work.ID]
    match w.NewEnv with
    | some err => ⟨some err, none, calls, logs⟩
    | none =>
      let timeout := run.timeout work
      let state := State.zero
      let state := { state with Started := w.started }
      let calls := calls ++ [Call.Init work.ID state]
      let logs := logs ++
        match w.Init with
        | some e => ["pipeline: error signaling pipeline init: " ++ work.ID ++ ": " ++ e]
        | none => []
      let fx := run.execute w.marshal work w.callbacks
      let calls := calls ++ fx.1
      let logs := logs ++ fx.2
      let state := run.resolve state w.finished w.Run w.cancelled
      let logs := logs ++ ["pipeline: execution complete: " ++ work.ID]
      let calls := calls ++ [Call.Done work.ID state]
      let logs := logs ++
        match w.Done with
        | some e => ["Pipeine: error signaling pipeline done: " ++ work.ID ++ ": " ++ e]
        | none => []
      let late := run.execute w.marshal work w.pending
      let calls := calls ++ late.1
      let logs := logs ++ late.2
      ⟨none, some timeout, calls, logs⟩

end agent

/-! ## Concrete inputs -/

namespace handler

open rpc

/-- A filter with one key, mapped to the empty string. -/
def emptyValueFilter : Filter := ⟨⟨[("platform", "")]⟩⟩

/-- A task without labels. -/
def unlabelledTask : Task := ⟨"t1", [], ⟨[]⟩⟩

/-- A filter naming a platform. -/
def platformFilter : Filter := ⟨⟨[("platform", "linux/amd64")]⟩⟩

/-- A task of that platform, with one more label. -/
def platformTask : Task := ⟨"t1", [], ⟨[("platform", "linux/amd64"), ("zone", "a")]⟩⟩

/-- An adapter whose queue leases `platformTask` to every poller. -/
def leasingRPC : RPC := ⟨⟨fun _ => Except.ok (some platformTask)⟩⟩

/-- A runtime in which decoding fails, leaving the destination as it was, and the file is
written. -/
def decodeFailsRuntime : Runtime :=
  ⟨fun _ dst => (dst, some "unexpected end of JSON input"), fun _ => [], fun _ _ _ => none⟩

end handler

namespace rpc2

open rpc

/-- A server whose peer has no work and whose decoder accepts every parameter. -/
def idleServer : Server :=
  ⟨⟨fun _ => (none, none)⟩, fun _ => Except.ok ⟨⟨[]⟩⟩⟩

/-- The seven method names listed by the spec. -/
def specMethods : List String :=
  ["next", "wait", "extend", "init", "update", "upload", "done"]

end rpc2

namespace agent

open rpc

/-- A filter naming a platform. -/
def linuxFilter : Filter := ⟨⟨[("platform", "linux/amd64")]⟩⟩

/-- A unit of work without a timeout of its own. -/
def workT1 : Pipeline := ⟨"t1", none, 0⟩

/-- A step that has not exited, without environment. -/
def freshStep : PipelineState := ⟨⟨100, ⟨"build", none⟩, none⟩, ⟨false, 0⟩⟩

/-- The same step once its process has exited. -/
def exitedStep : PipelineState := ⟨⟨100, ⟨"build", none⟩, none⟩, ⟨true, 0⟩⟩

/-- Four equal clock readings. -/
def clockAt (t : Int) : TraceClock := ⟨t, t, t, t⟩

/-- A world in which `workT1` is leased, the engine is created, the executor invokes no
callback and succeeds, nothing is cancelled and every report is accepted. -/
def quietWorld : World where
  Next := fun _ => Except.ok (some workT1)
  NewEnv := none
  started := 100
  Init := none
  marshal := fun _ => []
  callbacks := []
  pending := []
  Run := none
  finished := 160
  cancelled := false
  Done := none

/-- The quiet world, except that the executor returns `err` and the flag reads `cancelled`. -/
def worldWith (err : Option RunError) (cancelled : Bool) : World :=
  { quietWorld with Run := err, cancelled := cancelled }

/-- The quiet world with a task whose timeout is `m` minutes. -/
def worldWithTimeout (m : Int) : World :=
  { quietWorld with Next := fun _ => Except.ok (some ⟨"t1", none, m⟩) }

end agent

/-! ## Properties of maps -/

namespace StrMap

theorem find?_of_mem_kvs (m : StrMap) (hwf : m.WF) (k v : String) (h : (k, v) ∈ m.kvs) :
    m.find? k = some v := by
  obtain ⟨kvs⟩ := m
  simp only [WF] at hwf
  simp only [find?]
  simp only at h
  induction kvs with
  | nil => simp at h
  | cons e rest ih =>
    obtain ⟨k1, v1⟩ := e
    simp only [List.map_cons, List.nodup_cons, List.mem_map, Prod.exists, exists_and_right,
      exists_eq_right, not_exists] at hwf
    rcases List.mem_cons.mp h with heq | hmem
    · cases heq
      simp [List.lookup_cons]
    · have hne : k ≠ k1 := by
        intro hk
        subst hk
        exact hwf.1 v hmem
      have hb : (k == k1) = false := by simpa using hne
      simp only [List.lookup_cons, hb]
      exact ih hwf.2 hmem

theorem mem_kvs_of_find? (m : StrMap) (k v : String) (h : m.find? k = some v) :
    (k, v) ∈ m.kvs := by
  obtain ⟨kvs⟩ := m
  simp only [find?] at h
  simp only
  induction kvs with
  | nil => simp at h
  | cons e rest ih =>
    obtain ⟨k1, v1⟩ := e
    simp only [List.lookup_cons] at h
    by_cases hk : k = k1
    · subst hk
      simp at h
      simp [h]
    · have hb : (k == k1) = false := by simpa using hk
      simp only [hb] at h
      exact List.mem_cons_of_mem _ (ih h)

theorem find?_set_self (m : StrMap) (k v : String) : (m.set k v).find? k = some v := by
  simp [set, find?, List.lookup_cons]

theorem find?_set_of_ne (m : StrMap) (k v k1 : String) (hne : k1 ≠ k) :
    (m.set k v).find? k1 = m.find? k1 := by
  obtain ⟨kvs⟩ := m
  have hb : (k1 == k) = false := by simpa using hne
  simp only [set, find?, List.lookup_cons, hb]
  induction kvs with
  | nil => simp
  | cons e rest ih =>
    obtain ⟨k2, v2⟩ := e
    by_cases h2 : k2 = k
    · subst h2
      simp [List.filter_cons, List.lookup_cons, hb, ih]
    · have hb2 : (k2 != k) = true := by simpa using h2
      simp only [List.filter_cons, hb2, if_true, List.lookup_cons, ih]

theorem index_set_self (m : StrMap) (k v : String) : (m.set k v).index k = v := by
  simp [index, find?_set_self]

theorem index_set_of_ne (m : StrMap) (k v k1 : String) (hne : k1 ≠ k) :
    (m.set k v).index k1 = m.index k1 := by
  simp [index, find?_set_of_ne m k v k1 hne]

end StrMap

/-! ## The label predicate of `RPC.Next` -/

namespace handler

open rpc

theorem fnLoop_eq_true_iff (task : Task) (kvs : List (String × String)) :
    RPC.Next.fnLoop task kvs = true ↔ ∀ e ∈ kvs, task.Labels.index e.1 = e.2 := by
  induction kvs with
  | nil => simp [RPC.Next.fnLoop]
  | cons e rest ih =>
    obtain ⟨k, v⟩ := e
    by_cases h : task.Labels.index k = v
    · simp [RPC.Next.fnLoop, h, ih]
    · simp [RPC.Next.fnLoop, h]

theorem fn_eq_true_iff (filter : Filter) (task : Task) (hwf : filter.Labels.WF) :
    RPC.Next.fn filter task = true ↔
      ∀ k v, filter.Labels.find? k = some v → task.Labels.index k = v := by
  rw [RPC.Next.fn, fnLoop_eq_true_iff]
  constructor
  · intro h k v hk
    exact h (k, v) (filter.Labels.mem_kvs_of_find? k v hk)
  · intro h e he
    exact h e.1 e.2 (filter.Labels.find?_of_mem_kvs hwf e.1 e.2 he)

/-- The order in which the `range` loop visits the entries does not matter. -/
theorem fnLoop_perm (task : Task) (l1 l2 : List (String × String)) (hp : l1.Perm l2) :
    RPC.Next.fnLoop task l1 = RPC.Next.fnLoop task l2 := by
  rw [Bool.eq_iff_iff, fnLoop_eq_true_iff, fnLoop_eq_true_iff]
  constructor
  · intro h e he
    exact h e (hp.mem_iff.mpr he)
  · intro h e he
    exact h e (hp.mem_iff.mp he)

/-- C2, as stated, fails: the filter whose only key `platform` has the empty string as value
accepts a task that has no label `platform` at all. -/
theorem Next_fn_accepts_absent_key :
    RPC.Next.fn emptyValueFilter unlabelledTask = true ∧
      emptyValueFilter.Labels.find? "platform" = some "" ∧
      unlabelledTask.Labels.find? "platform" = none ∧
      ¬ (RPC.Next.fn emptyValueFilter unlabelledTask = true ↔
          ∀ k v, emptyValueFilter.Labels.find? k = some v →
            unlabelledTask.Labels.find? k = some v) := by
  refine ⟨by decide, by decide, by decide, ?_⟩
  intro h
  have h1 := h.mp (by decide) "platform" "" (by decide)
  exact absurd h1 (by decide)

/-- C2, amended: the predicate `fn` that `RPC.Next` hands to `Poll` accepts a task if and only
if, for every key of the filter's labels, indexing the task's labels with that key (which
gives the empty string for an absent key) gives the filter's value; hence for a filter value
that is not empty the key is present in the task's labels with an equal value.  Two tasks whose
labels agree on the filter's keys get the same answer, whatever other labels they have. -/
theorem Next_fn_accepts_iff (filter : Filter) (task : Task) (hwf : filter.Labels.WF) :
    (RPC.Next.fn filter task = true ↔
      ∀ k v, filter.Labels.find? k = some v → task.Labels.index k = v) ∧
    (RPC.Next.fn filter task = true →
      ∀ k v, filter.Labels.find? k = some v → v ≠ "" → task.Labels.find? k = some v) ∧
    (∀ other : Task,
      (∀ k, filter.Labels.contains k = true → other.Labels.find? k = task.Labels.find? k) →
      RPC.Next.fn filter other = RPC.Next.fn filter task) := by
  refine ⟨fn_eq_true_iff filter task hwf, ?_, ?_⟩
  · intro h k v hk hv
    have hi := (fn_eq_true_iff filter task hwf).mp h k v hk
    unfold StrMap.index at hi
    cases hf : task.Labels.find? k with
    | none =>
      rw [hf] at hi
      exact absurd hi.symm hv
    | some v1 =>
      rw [hf] at hi
      simp only at hi
      rw [hi]
  · intro other hagree
    rw [Bool.eq_iff_iff, fn_eq_true_iff filter other hwf, fn_eq_true_iff filter task hwf]
    have hidx : ∀ k v, filter.Labels.find? k = some v →
        other.Labels.index k = task.Labels.index k := by
      intro k v hk
      have := hagree k (by simp [StrMap.contains, hk])
      simp [StrMap.index, this]
    constructor
    · intro h k v hk
      rw [← hidx k v hk]
      exact h k v hk
    · intro h k v hk
      rw [hidx k v hk]
      exact h k v hk

/-- C2, at a concrete input: a platform filter and a task of that platform with one more
label. -/
theorem Next_fn_accepts_iff_witness :
    platformFilter.Labels.WF ∧
    RPC.Next.fn platformFilter platformTask = true ∧
    (RPC.Next.fn platformFilter platformTask = true ↔
      ∀ k v, platformFilter.Labels.find? k = some v → platformTask.Labels.index k = v) :=
  ⟨by decide, by decide, (Next_fn_accepts_iff platformFilter platformTask (by decide)).1⟩

end handler

/-! ## The error returned by `RPC.Next` -/

namespace handler

open rpc

/-- C10: in `RPC.Next`, whenever `Poll` returns a task without error, the pipeline returned is
the decoded destination and the error returned is exactly the result of writing the diagnostic
file.  The decoding error never reaches the caller: a runtime that decodes to the same value
with any other error gives the same result; a payload that fails to decode yields a pipeline
with a nil error when the write succeeds; a payload that decodes yields the write error when
the write fails. -/
theorem Next_error_is_write_result (rt : Runtime) (s : RPC) (filter : Filter) (task : Task)
    (hpoll : s.queue.Poll (RPC.Next.fn filter) = Except.ok (some task)) :
    RPC.Next rt s filter =
      (some (rt.Unmarshal task.Data Pipeline.new).1,
        rt.WriteFile RPC.Next.path (rt.Marshal (rt.Unmarshal task.Data Pipeline.new).1) 0o644) ∧
    (∀ decodeErr : List UInt8 → Pipeline → Option String,
      RPC.Next ⟨fun d p => ((rt.Unmarshal d p).1, decodeErr d p), rt.Marshal, rt.WriteFile⟩
        s filter = RPC.Next rt s filter) ∧
    (∀ e, (rt.Unmarshal task.Data Pipeline.new).2 = some e →
      rt.WriteFile RPC.Next.path (rt.Marshal (rt.Unmarshal task.Data Pipeline.new).1) 0o644
        = none →
      (RPC.Next rt s filter).1.isSome = true ∧ (RPC.Next rt s filter).2 = none) ∧
    (∀ e, (rt.Unmarshal task.Data Pipeline.new).2 = none →
      rt.WriteFile RPC.Next.path (rt.Marshal (rt.Unmarshal task.Data Pipeline.new).1) 0o644
        = some e →
      (RPC.Next rt s filter).2 = some e) := by
  have hres : RPC.Next rt s filter =
      (some (rt.Unmarshal task.Data Pipeline.new).1,
        rt.WriteFile RPC.Next.path (rt.Marshal (rt.Unmarshal task.Data Pipeline.new).1)
          0o644) := by
    simp [RPC.Next, hpoll]
  refine ⟨hres, ?_, ?_, ?_⟩
  · intro decodeErr
    simp [RPC.Next, hpoll]
  · intro e _ hw
    rw [hres, hw]
    exact ⟨rfl, rfl⟩
  · intro e _ hw
    rw [hres, hw]

/-- C10, at a concrete input: the payload fails to decode and the file is written. -/
theorem Next_error_is_write_result_witness :
    (decodeFailsRuntime.Unmarshal platformTask.Data Pipeline.new).2
      = some "unexpected end of JSON input" ∧
    RPC.Next decodeFailsRuntime leasingRPC platformFilter = (some Pipeline.new, none) :=
  ⟨rfl, (Next_error_is_write_result decodeFailsRuntime leasingRPC platformFilter platformTask
    rfl).1⟩

end handler

/-! ## The router of the RPC server -/

namespace rpc2

open rpc

theorem next_ne_errNoSuchMethod (s : Server) (req : Request) :
    s.next req ≠ Outcome.ret none (some Error.errNoSuchMethod) := by
  unfold Server.next
  cases req.Params with
  | none => simp
  | some params =>
    cases hu : s.Unmarshal params with
    | error err => simp [hu]
    | ok filter =>
      cases h : (s.peer.Next filter).2 <;> simp [hu, h]

/-- C7, as stated, fails: `wait` is one of the seven names, and the router answers a `wait`
request with the no-such-method error. -/
theorem router_rejects_wait :
    "wait" ∈ specMethods ∧
    idleServer.router ⟨"wait", some []⟩ = Outcome.ret none (some Error.errNoSuchMethod) ∧
    ¬ (idleServer.router ⟨"wait", some []⟩ = Outcome.ret none (some Error.errNoSuchMethod) ↔
        "wait" ∉ specMethods) := by
  refine ⟨by decide, by decide, ?_⟩
  intro h
  exact h.mp (by decide) (by decide)

/-- C7, amended: the router returns the no-such-method error for a request if and only if
the request's method name is not `next`; a `next` request is handled by `Server.next`, which
hands the decoded filter to the bound peer and returns the peer's answer; each of `wait`,
`extend`, `init`, `update`, `upload` and `done` gets the no-such-method error. -/
theorem router_no_such_method_iff (s : Server) (req : Request) :
    (s.router req = Outcome.ret none (some Error.errNoSuchMethod) ↔ req.Method ≠ "next") ∧
    (req.Method = "next" → s.router req = s.next req) ∧
    (∀ params filter, req.Method = "next" → req.Params = some params →
      s.Unmarshal params = Except.ok filter →
      s.router req =
        Outcome.ret (s.peer.Next filter).1 ((s.peer.Next filter).2.map Error.external)) ∧
    (req.Method ∈ ["wait", "extend", "init", "update", "upload", "done"] →
      s.router req = Outcome.ret none (some Error.errNoSuchMethod)) := by
  refine ⟨?_, ?_, ?_, ?_⟩
  · constructor
    · intro h hm
      have hr : s.router req = s.next req := by simp [Server.router, methodNext, hm]
      rw [hr] at h
      exact next_ne_errNoSuchMethod s req h
    · intro hm
      simp [Server.router, methodNext, hm]
  · intro hm
    simp [Server.router, methodNext, hm]
  · intro params filter hm hp hu
    simp [Server.router, methodNext, hm, Server.next, hp, hu]
  · intro hm
    have hne : req.Method ≠ "next" := by
      intro h
      rw [h] at hm
      exact absurd hm (by decide)
    simp [Server.router, methodNext, hne]

/-- C7, at concrete inputs: an `extend` request is rejected, a `next` request reaches the
peer. -/
theorem router_no_such_method_iff_witness :
    idleServer.router ⟨"extend", some []⟩ = Outcome.ret none (some Error.errNoSuchMethod) ∧
    idleServer.router ⟨"next", some []⟩ = Outcome.ret none none :=
  ⟨(router_no_such_method_iff idleServer ⟨"extend", some []⟩).2.2.2 (by decide),
   (router_no_such_method_iff idleServer ⟨"next", some []⟩).2.2.1 [] ⟨⟨[]⟩⟩ rfl rfl rfl⟩

end rpc2

/-! ## Copying through a limited reader -/

namespace io

theorem take_append_take_drop (r : List UInt8) (a n : Nat) (han : a ≤ n) :
    r.take a ++ (r.drop a).take (n - (r.take a).length) = r.take n := by
  by_cases h : a ≤ r.length
  · have hlen : (r.take a).length = a := by simp [List.length_take, h]
    rw [hlen]
    have hn : n = a + (n - a) := by omega
    conv_rhs => rw [hn, List.take_add]
  · have hle : r.length ≤ a := by omega
    rw [List.take_of_length_le hle, List.drop_of_length_le hle,
      List.take_of_length_le (by omega : r.length ≤ n)]
    simp

theorem drop_drop_take (r : List UInt8) (a n : Nat) (han : a ≤ n) :
    (r.drop a).drop (n - (r.take a).length) = r.drop n := by
  by_cases h : a ≤ r.length
  · have hlen : (r.take a).length = a := by simp [List.length_take, h]
    rw [hlen, List.drop_drop]
    congr 1
    omega
  · have hle : r.length ≤ a := by omega
    rw [List.drop_of_length_le hle, List.drop_of_length_le (by omega : r.length ≤ n)]
    simp

theorem copyLoop_spec (size : Nat) (hsize : 0 < size) (fuel : Nat) :
    ∀ (l : LimitedReader) (acc : List (List UInt8)), l.R.length < fuel →
      (copyLoop size fuel l acc).1.flatten = acc.flatten ++ l.R.take l.N ∧
      (copyLoop size fuel l acc).2.R = l.R.drop l.N := by
  induction fuel with
  | zero =>
    intro l acc h
    omega
  | succ fuel ih =>
    intro l acc h
    obtain ⟨r, n⟩ := l
    simp only at h
    by_cases hn : n = 0
    · subst hn
      simp [copyLoop, LimitedReader.Read]
    · cases r with
      | nil => simp [copyLoop, LimitedReader.Read, hn, io.Read]
      | cons b rest =>
        have hlen : 0 < (if size > n then n else size) := by
          split <;> omega
        have hle : (if size > n then n else size) ≤ n := by
          split <;> omega
        simp only [copyLoop, LimitedReader.Read, hn, if_false, io.Read]
        generalize (if size > n then n else size) = len at hlen hle ⊢
        have hshort : ((b :: rest).drop len).length < fuel := by
          simp only [List.length_drop, List.length_cons] at h ⊢
          omega
        have hrec := ih ⟨(b :: rest).drop len, n - ((b :: rest).take len).length⟩
          (acc ++ [(b :: rest).take len]) hshort
        simp only at hrec
        rw [hrec.1, hrec.2, drop_drop_take _ _ _ hle, List.flatten_append, List.append_assoc]
        simp only [List.flatten_cons, List.flatten_nil, List.append_nil]
        rw [take_append_take_drop _ _ _ hle]
        exact ⟨rfl, trivial⟩

theorem Copy_spec (r : List UInt8) (n : Nat) :
    (Copy (LimitReader r n)).1.flatten = r.take n ∧ (Copy (LimitReader r n)).2.R = r.drop n := by
  have hsize : 0 < (if 32 * 1024 > n then (if n < 1 then 1 else n) else 32 * 1024) := by
    split
    · split <;> omega
    · omega
  have h := copyLoop_spec _ hsize (r.length + 1) ⟨r, n⟩ [] (Nat.lt_succ_self _)
  simpa [Copy, LimitReader] using h

end io

/-! ## The agent's `run` -/

namespace agent

open rpc

theorem doneStates_append (a b : List Call) :
    doneStates (a ++ b) = doneStates a ++ doneStates b := by
  induction a with
  | nil => rfl
  | cons c rest ih => cases c <;> simp [doneStates, ih]

theorem defaultTracer_calls (work : Pipeline) (state : PipelineState) (clock : TraceClock)
    (uerr : Option String) :
    doneStates (run.defaultTracer work state clock uerr).2.calls = [] := by
  cases h : state.Process.Exited <;> simp [run.defaultTracer, h, doneStates]

theorem defaultLogger_calls (marshal : List (List UInt8) → List UInt8) (work : Pipeline)
    (proc : Step) (rc : Except String (List UInt8)) (now : Int) (serr : Option String) :
    doneStates (run.defaultLogger marshal work proc rc now serr).1.calls = [] := by
  cases rc <;> rfl

theorem localLogger_calls (rc : Except String (List UInt8)) :
    doneStates (run.localLogger rc).calls = [] := by
  cases rc <;> rfl

/-- No callback calls `Done`. -/
theorem execute_doneStates (marshal : List (List UInt8) → List UInt8) (work : Pipeline)
    (cbs : List Callback) : doneStates (run.execute marshal work cbs).1 = [] := by
  induction cbs with
  | nil => rfl
  | cons cb rest ih =>
    cases cb with
    | trace state clock uerr =>
      simp [run.execute, doneStates_append, ih, defaultTracer_calls]
    | log proc rc now serr =>
      simp [run.execute, doneStates_append, ih, defaultLogger_calls]
    | localLog proc rc =>
      simp [run.execute, doneStates_append, ih, localLogger_calls]

/-- The calls of a `run` that leased `work` and obtained an engine. -/
theorem run_calls_of_leased (w : World) (filter : Filter) (work : Pipeline)
    (hnext : w.Next filter = Except.ok (some work)) (henv : w.NewEnv = none) :
    (run w filter).calls =
      [Call.Next filter, Call.Init work.ID { State.zero with Started := w.started }] ++
        (run.execute w.marshal work w.callbacks).1 ++
        [Call.Done work.ID
          (run.resolve { State.zero with Started := w.started } w.finished w.Run w.cancelled)] ++
        (run.execute w.marshal work w.pending).1 ∧
    (run w filter).err = none ∧
    (run w filter).timeout = some (run.timeout work) := by
  simp [run, hnext, henv]

/-- The one state passed to `Done` by a `run` that leased `work` and obtained an engine. -/
theorem run_doneStates_of_leased (w : World) (filter : Filter) (work : Pipeline)
    (hnext : w.Next filter = Except.ok (some work)) (henv : w.NewEnv = none) :
    doneStates (run w filter).calls =
      [run.resolve { State.zero with Started := w.started } w.finished w.Run w.cancelled] := by
  rw [(run_calls_of_leased w filter work hnext henv).1]
  simp [doneStates_append, execute_doneStates, doneStates]

/-- C1, as stated, fails: when the executor returns no error and the flag is set, the state
passed to `Done` has exit code 0. -/
theorem run_cancelled_without_error_exit_code :
    (worldWith none true).cancelled = true ∧
    (worldWith none true).Next linuxFilter = Except.ok (some workT1) ∧
    doneStates (run (worldWith none true) linuxFilter).calls = [⟨"", true, 0, 100, 160, ""⟩] ∧
    ¬ (∀ st, st ∈ doneStates (run (worldWith none true) linuxFilter).calls →
        st.ExitCode = 137) := by
  refine ⟨rfl, rfl, by decide, ?_⟩
  intro h
  have h1 := h ⟨"", true, 0, 100, 160, ""⟩ (by decide)
  exact absurd h1 (by decide)

/-- C1, amended: in `run`, for every error the executor returns (a structured exit error with
any code, or any other error), if the cancellation flag is set when the final state is
resolved, the one state passed to `Done` has `ExitCode` 137; when the executor returns no
error, the one state passed to `Done` has `ExitCode` 0, whether or not the flag is set. -/
theorem run_cancelled_error_exit_code (w : World) (filter : Filter) (work : Pipeline)
    (hnext : w.Next filter = Except.ok (some work)) (henv : w.NewEnv = none) :
    (∀ e : RunError, w.Run = some e → w.cancelled = true →
      ∃ st, doneStates (run w filter).calls = [st] ∧ st.ExitCode = 137) ∧
    (w.Run = none →
      ∃ st, doneStates (run w filter).calls = [st] ∧ st.ExitCode = 0) := by
  constructor
  · intro e hrun hcancel
    refine ⟨_, run_doneStates_of_leased w filter work hnext henv, ?_⟩
    rw [hrun, hcancel]
    cases e <;> rfl
  · intro hrun
    refine ⟨_, run_doneStates_of_leased w filter work hnext henv, ?_⟩
    rw [hrun]
    rfl

/-- C1, at concrete inputs: the executor reports exit code 2 and the flag is set; the executor
reports no error and the flag is set. -/
theorem run_cancelled_error_exit_code_witness :
    ((worldWith (some (RunError.ExitError "build" 2)) true).cancelled = true ∧
      ∃ st, doneStates (run (worldWith (some (RunError.ExitError "build" 2)) true)
        linuxFilter).calls = [st] ∧ st.ExitCode = 137) ∧
    ((worldWith none true).cancelled = true ∧
      ∃ st, doneStates (run (worldWith none true) linuxFilter).calls = [st] ∧
        st.ExitCode = 0) :=
  ⟨⟨rfl, (run_cancelled_error_exit_code (worldWith (some (RunError.ExitError "build" 2)) true)
      linuxFilter workT1 rfl rfl).1 (RunError.ExitError "build" 2) rfl rfl⟩,
   ⟨rfl, (run_cancelled_error_exit_code (worldWith none true) linuxFilter workT1 rfl rfl).2
      rfl⟩⟩

/-- C5: in `run`, for every code `E`, if the executor returns a structured exit error with
code `E` and the cancellation flag is not set, the one state passed to `Done` has `ExitCode`
equal to `E`. -/
theorem run_exit_error_exit_code (w : World) (filter : Filter) (work : Pipeline)
    (name : String) (E : Int) (hnext : w.Next filter = Except.ok (some work))
    (henv : w.NewEnv = none) (hrun : w.Run = some (RunError.ExitError name E))
    (hcancel : w.cancelled = false) :
    ∃ st, doneStates (run w filter).calls = [st] ∧ st.ExitCode = E := by
  refine ⟨_, run_doneStates_of_leased w filter work hnext henv, ?_⟩
  rw [hrun, hcancel]
  rfl

/-- C5, at a concrete input: the executor reports exit code 3. -/
theorem run_exit_error_exit_code_witness :
    (worldWith (some (RunError.ExitError "test" 3)) false).cancelled = false ∧
    ∃ st, doneStates (run (worldWith (some (RunError.ExitError "test" 3)) false)
      linuxFilter).calls = [st] ∧ st.ExitCode = 3 :=
  ⟨rfl, run_exit_error_exit_code (worldWith (some (RunError.ExitError "test" 3)) false)
    linuxFilter workT1 "test" 3 rfl rfl rfl rfl⟩

/-- C6: in `run`, if the executor returns an error that is not a structured exit error and
the cancellation flag is not set, the one state passed to `Done` has `ExitCode` 1 and `Error`
equal to the text of the executor's error. -/
theorem run_other_error_exit_code (w : World) (filter : Filter) (work : Pipeline)
    (text : String) (hnext : w.Next filter = Except.ok (some work)) (henv : w.NewEnv = none)
    (hrun : w.Run = some (RunError.other text)) (hcancel : w.cancelled = false) :
    ∃ st, doneStates (run w filter).calls = [st] ∧ st.ExitCode = 1 ∧ st.Error = text := by
  refine ⟨_, run_doneStates_of_leased w filter work hnext henv, ?_⟩
  rw [hrun, hcancel]
  exact ⟨rfl, rfl⟩

/-- C6, at a concrete input: the executor fails with a plain error. -/
theorem run_other_error_exit_code_witness :
    (worldWith (some (RunError.other "image not found")) false).cancelled = false ∧
    ∃ st, doneStates (run (worldWith (some (RunError.other "image not found")) false)
      linuxFilter).calls = [st] ∧ st.ExitCode = 1 ∧ st.Error = "image not found" :=
  ⟨rfl, run_other_error_exit_code (worldWith (some (RunError.other "image not found")) false)
    linuxFilter workT1 "image not found" rfl rfl rfl rfl⟩

end agent

namespace agent

open rpc

/-- C4, as stated, fails: for a timeout of 153722868 minutes the 64-bit product with
`time.Minute` wraps around, and the duration given to `context.WithTimeout` is negative. -/
theorem run_timeout_wraps :
    (worldWithTimeout 153722868).Next linuxFilter = Except.ok (some ⟨"t1", none, 153722868⟩) ∧
    (run (worldWithTimeout 153722868) linuxFilter).timeout = some (-9223371993709551616) ∧
    (run (worldWithTimeout 153722868) linuxFilter).timeout ≠
      some (153722868 * 60000000000) := by
  refine ⟨rfl, by decide, by decide⟩

/-- C4, amended: the timeout `run` derives from a leased task is exactly one hour
(3600000000000 nanoseconds) when the task's timeout field is 0, and exactly `m` minutes
(`m * 60000000000` nanoseconds) when the field is `m` with `0 < m ≤ 153722867`, the largest
number of minutes that a signed 64-bit count of nanoseconds can hold. -/
theorem run_timeout_of_minutes (w : World) (filter : Filter) (work : Pipeline)
    (hnext : w.Next filter = Except.ok (some work)) (henv : w.NewEnv = none) :
    (work.Timeout = 0 → (run w filter).timeout = some 3600000000000) ∧
    (0 < work.Timeout → work.Timeout ≤ 153722867 →
      (run w filter).timeout = some (work.Timeout * 60000000000)) := by
  rw [(run_calls_of_leased w filter work hnext henv).2.2]
  constructor
  · intro h0
    simp [run.timeout, h0, time.Hour, time.Minute]
  · intro hpos hle
    have hne : work.Timeout ≠ 0 := by omega
    simp only [run.timeout, bne_iff_ne, ne_eq, hne, not_false_eq_true, if_true, wrap64,
      time.Minute]
    congr 1
    omega

/-- C4, at concrete inputs: no timeout of its own, and a timeout of 90 minutes. -/
theorem run_timeout_of_minutes_witness :
    (run quietWorld linuxFilter).timeout = some 3600000000000 ∧
    (run (worldWithTimeout 90) linuxFilter).timeout = some (90 * 60000000000) :=
  ⟨(run_timeout_of_minutes quietWorld linuxFilter workT1 rfl rfl).1 rfl,
   (run_timeout_of_minutes (worldWithTimeout 90) linuxFilter ⟨"t1", none, 90⟩ rfl rfl).2
     (by decide) (by decide)⟩

/-- The status the tracer stamps: `failure` if the pipeline error is set, else `success`. -/
theorem defaultTracer_env (work : Pipeline) (state : PipelineState) (clock : TraceClock)
    (uerr : Option String) (hrun : state.Process.Exited = false) :
    ∃ env, (run.defaultTracer work state clock uerr).1.Pipeline.Step.Environment = some env ∧
      env.find? "CI_BUILD_STATUS" =
        some (if state.Pipeline.Error.isSome then "failure" else "success") ∧
      env.find? "CI_JOB_STATUS" =
        some (if state.Pipeline.Error.isSome then "failure" else "success") := by
  refine ⟨_, by simp only [run.defaultTracer, hrun]; rfl, ?_, ?_⟩
  · cases state.Pipeline.Error.isSome
    · simp [StrMap.find?_set_self, StrMap.find?_set_of_ne]
    · simp [StrMap.find?_set_self, StrMap.find?_set_of_ne]
  · cases state.Pipeline.Error.isSome
    · simp [StrMap.find?_set_self, StrMap.find?_set_of_ne]
    · simp [StrMap.find?_set_self, StrMap.find?_set_of_ne]

/-- C8, as stated, fails: called for a step whose process has exited and whose environment is
unset, the tracer leaves the environment unset. -/
theorem defaultTracer_exited_leaves_env_unset :
    exitedStep.Process.Exited = true ∧
    (run.defaultTracer workT1 exitedStep (clockAt 130) none).1.Pipeline.Step.Environment
      = none := by
  refine ⟨rfl, by decide⟩

/-- C8, amended: for every invocation of the tracer in which the step's process has not
exited, after the call the step's environment is set and maps `CI_BUILD_STATUS` and
`CI_JOB_STATUS` both to `failure` if the pipeline error is set at call time and both to
`success` otherwise; in an invocation in which the process has exited, the tracer leaves the
state, the environment included, as it was.  In both cases it calls `Update` once. -/
theorem defaultTracer_stamps_status (work : Pipeline) (state : PipelineState)
    (clock : TraceClock) (uerr : Option String) :
    (state.Process.Exited = false →
      ∃ env, (run.defaultTracer work state clock uerr).1.Pipeline.Step.Environment = some env ∧
        env.find? "CI_BUILD_STATUS" =
          some (if state.Pipeline.Error.isSome then "failure" else "success") ∧
        env.find? "CI_JOB_STATUS" =
          some (if state.Pipeline.Error.isSome then "failure" else "success")) ∧
    (state.Process.Exited = true → (run.defaultTracer work state clock uerr).1 = state) ∧
    (run.defaultTracer work state clock uerr).2.calls =
      [Call.Update work.ID ⟨state.Pipeline.Step.Alias, state.Process.Exited,
        state.Process.ExitCode, clock.started, clock.finished, ""⟩] := by
  refine ⟨defaultTracer_env work state clock uerr, ?_, ?_⟩
  · intro h
    simp [run.defaultTracer, h]
  · cases h : state.Process.Exited <;> simp [run.defaultTracer, h]

/-- C8, at a concrete input: a step that has not exited, without environment and without
pipeline error. -/
theorem defaultTracer_stamps_status_witness :
    freshStep.Process.Exited = false ∧
    ∃ env, (run.defaultTracer workT1 freshStep (clockAt 110) none).1.Pipeline.Step.Environment
        = some env ∧
      env.find? "CI_BUILD_STATUS" = some "success" ∧
      env.find? "CI_JOB_STATUS" = some "success" :=
  ⟨rfl, (defaultTracer_stamps_status workT1 freshStep (clockAt 110) none).1 rfl⟩

/-- C9: for every step output stream, of `n` bytes, handed over by `NextPart`, the uploading
log callback writes to the step's line writer (which accepts every chunk) exactly the first
`min n 5000000` bytes of the stream and returns no error, whatever `n` is and whether or not
the upload call fails; it makes one `Upload` call, and the bytes beyond the cap go to standard
error only. -/
theorem defaultLogger_forwards_capped (marshal : List (List UInt8) → List UInt8)
    (work : Pipeline) (proc : Step) (part : List UInt8) (now : Int) (serr : Option String) :
    (run.defaultLogger marshal work proc (Except.ok part) now serr).1.err = none ∧
    (run.defaultLogger marshal work proc (Except.ok part) now serr).2.flatten
      = part.take 5000000 ∧
    (run.defaultLogger marshal work proc (Except.ok part) now serr).2.flatten.length
      = min part.length 5000000 ∧
    (run.defaultLogger marshal work proc (Except.ok part) now serr).1.stderr
      = part.drop 5000000 ∧
    (run.defaultLogger marshal work proc (Except.ok part) now serr).1.calls.length = 1 := by
  have h := io.Copy_spec part maxLogsUpload
  simp only [maxLogsUpload] at h
  have h2 : (run.defaultLogger marshal work proc (Except.ok part) now serr).2.flatten
      = part.take 5000000 := by
    simp only [run.defaultLogger, maxLogsUpload]
    exact h.1
  refine ⟨rfl, h2, ?_, ?_, rfl⟩
  · rw [h2, List.length_take, Nat.min_comm]
  · simp only [run.defaultLogger, maxLogsUpload]
    exact h.2

end agent
